import Mathlib

/-!
Verification of the article-recommendation pipeline script.

The program is a three-stage linear pipeline over a mutable session state:
collect the read-article history of the user from interactive input, ask a
language-model endpoint for recommendations, and print them.

Shallow embedding choices:
* Console input is a finite list of lines; the collection loop consumes
  lines until the sentinel.  An input list containing no sentinel makes the
  real loop block forever, which we model as `Option.none`.
* The language-model endpoint is an abstract parameter
  `completion : String → Except String String` mapping the newline-joined
  history text to either a completion text or a raised exception message.
* Console output is modelled as the list of strings passed to
  `console.print`, in order.
-/

/-- The Python `str.lower()` method (ASCII case mapping, character by character). -/
def pyLower (s : String) : String :=
  String.mk (s.data.map Char.toLower)

/-- The character-level worker for the Python `str.split("\n\n")` method: split on
each non-overlapping occurrence of two consecutive newlines, scanning left
to right; adjacent separators yield empty chunks. -/
def splitBlank : List Char → List (List Char)
  | [] => [[]]
  | '\n' :: '\n' :: rest => [] :: splitBlank rest
  | c :: rest =>
    match splitBlank rest with
    | [] => [[c]]
    | chunk :: more => (c :: chunk) :: more

/-- The Python expression `s.split("\n\n")`. -/
def pySplitBlank (s : String) : List String :=
  (splitBlank s.data).map String.mk

/-- Session state: `read_articles` and `recommendations`, both initially
empty (class `ArticleState` in the source). -/
structure ArticleState where
  read_articles : List String
  recommendations : List String
deriving Repr, DecidableEq

/-- The freshly constructed state `ArticleState()`. -/
def ArticleState.init : ArticleState :=
  { read_articles := [], recommendations := [] }

/-- The collection loop of `collect_history`: read a line; if its
lowercasing equals "done" stop, otherwise append it to `read_articles`
and repeat.  `none` models an input stream that never supplies the
sentinel (the real loop would block forever). -/
def collect_history : List String → ArticleState → Option ArticleState
  | [], _ => none
  | article :: rest, state =>
    if pyLower article == "done" then some state
    else collect_history rest
      { state with read_articles := state.read_articles ++ [article] }

/-- The trace of states the collection loop passes through, starting with
the state it is given; each non-sentinel line produces the next state. -/
def collectTrace : List String → ArticleState → List ArticleState
  | [], state => [state]
  | article :: rest, state =>
    if pyLower article == "done" then [state]
    else state :: collectTrace rest
      { state with read_articles := state.read_articles ++ [article] }

/-- The text substituted for the prompt placeholder:
`"\n".join(x.read_articles)`. -/
def historyText (state : ArticleState) : String :=
  String.intercalate "\n" state.read_articles

/-- `generate_recommendations`: invoke the chain on the joined history and
split the raw completion on blank lines into `recommendations`.  A raised
exception from the endpoint propagates as `Except.error`. -/
def generate_recommendations (completion : String → Except String String)
    (state : ArticleState) : Except String ArticleState :=
  match completion (historyText state) with
  | Except.error e => Except.error e
  | Except.ok text =>
    Except.ok { state with recommendations := pySplitBlank text }

/-- The printing loop of `display_results`:
`for i, rec in enumerate(recs, 1)` prints the ordinal label then the
entry. -/
def displayLoop : Nat → List String → List String
  | _, [] => []
  | i, rec :: rest =>
    ("\n[bold yellow]推薦 " ++ toString i ++ "[/bold yellow]") :: rec ::
      displayLoop (i + 1) rest

/-- `display_results`: print the header and each recommendation with its
1-based ordinal label, returning the printed lines and the (returned)
state. -/
def display_results (state : ArticleState) : List String × ArticleState :=
  ("\n[bold green]おすすめの技術記事[/bold green]" ::
    displayLoop 1 state.recommendations, state)

/-- Python truthiness of `os.getenv("OPENAI_API_KEY")`: `None` (unset) and
the empty string are falsy. -/
def envTruthy : Option String → Bool
  | none => false
  | some v => v ≠ ""

/-- How one run of `main` ends. -/
inductive MainOutcome where
  /-- The credential check failed: the two error messages were printed and
  `main` returned before building or invoking the graph. -/
  | missingKey
  /-- An exception reached the top-level handler, which printed the error
  message and returned. -/
  | caughtError (msg : String)
  /-- The pipeline ran to completion; `printed` is the presenter output. -/
  | success (printed : List String)
deriving Repr, DecidableEq

/-- `main`: check the credential, then run the compiled linear graph
collect → generate → display inside the top-level `try`.  `none` models a
run that blocks forever waiting for the sentinel. -/
def mainRun (env : Option String) (completion : String → Except String String)
    (inputs : List String) : Option MainOutcome :=
  if envTruthy env = false then some MainOutcome.missingKey
  else
    match collect_history inputs ArticleState.init with
    | none => none
    | some st1 =>
      match generate_recommendations completion st1 with
      | Except.error e => some (MainOutcome.caughtError e)
      | Except.ok st2 => some (MainOutcome.success (display_results st2).1)

/-! ## Helper lemmas -/

/-- Running the collection loop on non-sentinel lines followed by a
sentinel appends exactly those lines and stops. -/
theorem collect_history_append (pre : List String) (s : String)
    (rest : List String) (st : ArticleState)
    (hpre : ∀ a ∈ pre, (pyLower a == "done") = false)
    (hs : (pyLower s == "done") = true) :
    collect_history (pre ++ s :: rest) st =
      some { st with read_articles := st.read_articles ++ pre } := by
  induction pre generalizing st with
  | nil =>
    simp [collect_history, hs]
  | cons a pre ih =>
    have ha : (pyLower a == "done") = false := hpre a (by simp)
    have hpre' : ∀ b ∈ pre, (pyLower b == "done") = false :=
      fun b hb => hpre b (by simp [hb])
    have h2 := ih { st with read_articles := st.read_articles ++ [a] } hpre'
    simp only [List.cons_append, collect_history, ha, Bool.false_eq_true,
      if_false]
    simpa [List.append_eq, List.append_assoc] using h2

/-! ## Claim theorems -/

/-- Claim C1: with the credential environment variable unset, `main` prints the
error message and returns before invoking the graph; the outcome does not
depend on the endpoint or on the input stream, so no network call is
attempted and no exception escapes. -/
theorem mainRun_missing_key
    (completion completion2 : String → Except String String)
    (inputs inputs2 : List String) :
    mainRun none completion inputs = some MainOutcome.missingKey ∧
    mainRun none completion inputs = mainRun none completion2 inputs2 :=
  ⟨rfl, rfl⟩

/-- Claim C2: for any finite list of non-sentinel lines entered before the first
sentinel, the collected `read_articles` is exactly that list, in input
order (hence of equal length), and `recommendations` stays empty. -/
theorem collect_history_exact (pre rest : List String) (s : String)
    (hpre : ∀ a ∈ pre, (pyLower a == "done") = false)
    (hs : (pyLower s == "done") = true) :
    collect_history (pre ++ s :: rest) ArticleState.init =
      some { read_articles := pre, recommendations := [] } := by
  rw [collect_history_append pre s rest ArticleState.init hpre hs]
  rfl

/-- Witness for C2 at a concrete input sequence. -/
theorem collect_history_exact_witness :
    collect_history (["a", "b"] ++ "DONE" :: ["x"]) ArticleState.init =
      some { read_articles := ["a", "b"], recommendations := [] } :=
  collect_history_exact ["a", "b"] ["x"] "DONE" (by decide) (by decide)

/-- Claim C6: the presenter is a pure function of the state and returns the
state unchanged, so running it twice prints identical output. -/
theorem display_results_deterministic (st : ArticleState) :
    (display_results (display_results st).2).1 = (display_results st).1 ∧
    (display_results st).2 = st :=
  ⟨rfl, rfl⟩

/-- Claim C5: end-to-end scenario: history collection records the single gRPC
article, the stubbed completion "A\n\nB\n\nC" splits into ["A","B","C"],
and the presenter prints three sections labeled 推薦 1..3 containing A, B,
C in order. -/
theorem pipeline_end_to_end :
    generate_recommendations (fun _ => Except.ok "A\n\nB\n\nC")
        { read_articles := ["Intro to gRPC: covers unary/streaming RPCs"],
          recommendations := [] } =
      Except.ok
        { read_articles := ["Intro to gRPC: covers unary/streaming RPCs"],
          recommendations := ["A", "B", "C"] } ∧
    mainRun (some "sk-test") (fun _ => Except.ok "A\n\nB\n\nC")
        ["Intro to gRPC: covers unary/streaming RPCs", "done"] =
      some (MainOutcome.success
        ["\n[bold green]おすすめの技術記事[/bold green]",
         "\n[bold yellow]推薦 1[/bold yellow]", "A",
         "\n[bold yellow]推薦 2[/bold yellow]", "B",
         "\n[bold yellow]推薦 3[/bold yellow]", "C"]) := by
  exact ⟨rfl, by decide⟩

/-- Claim C3: the collection loop terminates exactly when some input line equals
"done" case-insensitively, and the lines it appends are never case
variants of "done". -/
theorem collect_history_sentinel (inputs : List String) (st : ArticleState) :
    ((collect_history inputs st).isSome = true ↔
      ∃ a ∈ inputs, pyLower a = "done") ∧
    (∀ st', collect_history inputs st = some st' →
      ∃ t, st'.read_articles = st.read_articles ++ t ∧
        ∀ a ∈ t, ¬ pyLower a = "done") := by
  induction inputs generalizing st with
  | nil =>
    constructor
    · simp [collect_history]
    · intro st' h
      simp [collect_history] at h
  | cons a rest ih =>
    by_cases ha : pyLower a = "done"
    · constructor
      · simp [collect_history, ha]
      · intro st' h
        simp only [collect_history, ha, beq_self_eq_true, if_true,
          Option.some.injEq] at h
        exact ⟨[], by simp [← h], by simp⟩
    · have h1 := (ih { st with read_articles := st.read_articles ++ [a] }).1
      have h2 := (ih { st with read_articles := st.read_articles ++ [a] }).2
      have hc : collect_history (a :: rest) st =
          collect_history rest
            { st with read_articles := st.read_articles ++ [a] } := by
        simp [collect_history, ha]
      constructor
      · rw [hc, h1]
        simp [ha]
      · intro st' h
        rw [hc] at h
        obtain ⟨t, ht, hall⟩ := h2 st' h
        refine ⟨a :: t, ?_, ?_⟩
        · simpa [List.append_assoc] using ht
        · intro x hx
          rcases List.mem_cons.mp hx with hx | hx
          · exact hx ▸ ha
          · exact hall x hx

/-- Witness for C3 at a concrete input sequence: a mixed-case sentinel
terminates the loop. -/
theorem collect_history_sentinel_witness :
    (collect_history ["a", "DoNe"] ArticleState.init).isSome = true :=
  (collect_history_sentinel ["a", "DoNe"] ArticleState.init).1.mpr
    ⟨"DoNe", by simp, by decide⟩

/-- The printing loop emits two lines per recommendation. -/
theorem displayLoop_length (recs : List String) (i : Nat) :
    (displayLoop i recs).length = 2 * recs.length := by
  induction recs generalizing i with
  | nil => simp [displayLoop]
  | cons r rest ih =>
    simp [displayLoop, ih]
    omega

/-- Positions of the label and entry of the k-th recommendation in the
printing loop output. -/
theorem displayLoop_get (recs : List String) (i k : Nat)
    (hk : k < recs.length) :
    (displayLoop i recs)[2 * k]? =
      some ("\n[bold yellow]推薦 " ++ toString (i + k) ++ "[/bold yellow]") ∧
    (displayLoop i recs)[2 * k + 1]? = recs[k]? := by
  induction recs generalizing i k with
  | nil => simp at hk
  | cons r rest ih =>
    cases k with
    | zero => simp [displayLoop]
    | succ k =>
      have hk' : k < rest.length := by
        simpa using Nat.lt_of_succ_lt_succ hk
      have h := ih (i + 1) k hk'
      have e1 : 2 * (k + 1) = 2 * k + 1 + 1 := by ring
      have e2 : i + (k + 1) = i + 1 + k := by omega
      rw [e1, e2]
      simpa [displayLoop] using h

/-- Claim C4: the presenter prints the header and then, for each recommendation
in list order, exactly one label line carrying its 1-based ordinal
followed by the entry itself; for a two-element list the output is exactly
the header and the two sections labeled 1 and 2. -/
theorem display_results_ordered (st : ArticleState) :
    (display_results st).1.length = 1 + 2 * st.recommendations.length ∧
    (∀ k, k < st.recommendations.length →
      (display_results st).1[2 * k + 1]? =
        some ("\n[bold yellow]推薦 " ++ toString (k + 1) ++ "[/bold yellow]") ∧
      (display_results st).1[2 * k + 2]? = st.recommendations[k]?) ∧
    (∀ a b, st.recommendations = [a, b] →
      (display_results st).1 =
        ["\n[bold green]おすすめの技術記事[/bold green]",
         "\n[bold yellow]推薦 1[/bold yellow]", a,
         "\n[bold yellow]推薦 2[/bold yellow]", b]) := by
  refine ⟨?_, ?_, ?_⟩
  · simp [display_results, displayLoop_length]
    omega
  · intro k hk
    have h := displayLoop_get st.recommendations 1 k hk
    have e2 : 1 + k = k + 1 := by omega
    rw [e2] at h
    constructor
    · simpa [display_results] using h.1
    · simpa [display_results] using h.2
  · intro a b hab
    have l1 : ("\n[bold yellow]推薦 " ++ toString (1 : Nat) ++
        "[/bold yellow]") = "\n[bold yellow]推薦 1[/bold yellow]" := by
      decide
    have l2 : ("\n[bold yellow]推薦 " ++ toString (1 + 1 : Nat) ++
        "[/bold yellow]") = "\n[bold yellow]推薦 2[/bold yellow]" := by
      decide
    simp only [display_results, hab, displayLoop]
    rw [l1, l2]

/-- Witness for C4 at a concrete two-element recommendation list. -/
theorem display_results_ordered_witness :
    (display_results { read_articles := [], recommendations := ["A", "B"] }).1 =
      ["\n[bold green]おすすめの技術記事[/bold green]",
       "\n[bold yellow]推薦 1[/bold yellow]", "A",
       "\n[bold yellow]推薦 2[/bold yellow]", "B"] :=
  (display_results_ordered
    { read_articles := [], recommendations := ["A", "B"] }).2.2 "A" "B" rfl

/-- The collection-loop trace is never empty. -/
theorem collectTrace_ne_nil (inputs : List String) (st : ArticleState) :
    collectTrace inputs st ≠ [] := by
  cases inputs with
  | nil => simp [collectTrace]
  | cons a rest =>
    by_cases h : pyLower a = "done" <;> simp [collectTrace, h]

/-- The collection-loop trace starts with the initial state. -/
theorem collectTrace_head (inputs : List String) (st : ArticleState) :
    (collectTrace inputs st).head? = some st := by
  cases inputs with
  | nil => simp [collectTrace]
  | cons a rest =>
    by_cases h : pyLower a = "done" <;> simp [collectTrace, h]

/-- No state in the collection-loop trace changes `recommendations`. -/
theorem collectTrace_recs (inputs : List String) (st : ArticleState) :
    ∀ s ∈ collectTrace inputs st, s.recommendations = st.recommendations := by
  induction inputs generalizing st with
  | nil => simp [collectTrace]
  | cons a rest ih =>
    by_cases h : pyLower a = "done"
    · simp [collectTrace, h]
    · intro s hs
      simp only [collectTrace, h, beq_iff_eq, if_false, List.mem_cons] at hs
      rcases hs with rfl | hs
      · rfl
      · exact ih { st with read_articles := st.read_articles ++ [a] } s hs

/-- Consecutive trace states differ by appending exactly one article. -/
theorem collectTrace_chain (inputs : List String) (st : ArticleState) :
    List.Chain'
      (fun s t : ArticleState =>
        ∃ a, t.read_articles = s.read_articles ++ [a])
      (collectTrace inputs st) := by
  induction inputs generalizing st with
  | nil => simp [collectTrace]
  | cons a rest ih =>
    by_cases h : pyLower a = "done"
    · simp [collectTrace, h]
    · simp only [collectTrace, h, beq_iff_eq, if_false]
      rw [List.chain'_cons']
      refine ⟨?_, ih { st with read_articles := st.read_articles ++ [a] }⟩
      intro b hb
      rw [collectTrace_head] at hb
      have hb' : b = { st with read_articles := st.read_articles ++ [a] } := by
        simpa using hb.symm
      subst hb'
      exact ⟨a, rfl⟩

/-- The last trace state is the state the collection loop returns. -/
theorem collectTrace_last (inputs : List String) (st st' : ArticleState)
    (h : collect_history inputs st = some st') :
    (collectTrace inputs st).getLast? = some st' := by
  induction inputs generalizing st with
  | nil => simp [collect_history] at h
  | cons a rest ih =>
    by_cases ha : pyLower a = "done"
    · simp only [collect_history, ha, beq_self_eq_true, if_true,
        Option.some.injEq] at h
      simp [collectTrace, ha, h]
    · simp only [collect_history, ha, beq_iff_eq, if_false] at h
      have htail := ih { st with read_articles := st.read_articles ++ [a] } h
      simp only [collectTrace, ha, beq_iff_eq, if_false]
      obtain ⟨x, xs, hx⟩ := List.exists_cons_of_ne_nil
        (collectTrace_ne_nil rest
          { st with read_articles := st.read_articles ++ [a] })
      rw [hx] at htail ⊢
      rw [List.getLast?_cons_cons]
      exact htail

/-- Claim C7: starting from the fresh state, `recommendations` is empty at every
point of the collection stage, each collection step only appends one entry
to `read_articles`, and the loop returns the last trace state. -/
theorem collect_invariant (inputs : List String) :
    (∀ s ∈ collectTrace inputs ArticleState.init, s.recommendations = []) ∧
    List.Chain'
      (fun s t : ArticleState =>
        ∃ a, t.read_articles = s.read_articles ++ [a])
      (collectTrace inputs ArticleState.init) ∧
    (∀ st', collect_history inputs ArticleState.init = some st' →
      (collectTrace inputs ArticleState.init).getLast? = some st') :=
  ⟨fun s hs => collectTrace_recs inputs ArticleState.init s hs,
   collectTrace_chain inputs ArticleState.init,
   fun st' h => collectTrace_last inputs ArticleState.init st' h⟩

/-- Witness for C7 at a concrete input sequence. -/
theorem collect_invariant_witness :
    (collectTrace ["x", "done"] ArticleState.init).getLast? =
      some { read_articles := ["x"], recommendations := [] } :=
  (collect_invariant ["x", "done"]).2.2
    { read_articles := ["x"], recommendations := [] } (by decide)

/-- Claim C8: with the credential present, any exception raised while invoking
the endpoint reaches the single top-level handler, which prints the
message and returns normally; the outcome is the caught error, nothing
else. -/
theorem mainRun_catch_all (key : String) (hkey : ¬ key = "")
    (completion : String → Except String String) (inputs : List String)
    (st1 : ArticleState)
    (hc : collect_history inputs ArticleState.init = some st1)
    (e : String) (he : completion (historyText st1) = Except.error e) :
    mainRun (some key) completion inputs =
      some (MainOutcome.caughtError e) := by
  simp [mainRun, envTruthy, hkey, hc, generate_recommendations, he]

/-- Witness for C8: a raised endpoint error is caught and reported. -/
theorem mainRun_catch_all_witness :
    mainRun (some "k") (fun _ => Except.error "boom") ["done"] =
      some (MainOutcome.caughtError "boom") :=
  mainRun_catch_all "k" (by decide) (fun _ => Except.error "boom") ["done"]
    ArticleState.init (by decide) "boom" rfl

/-- Claim C9: the generation stage leaves `read_articles` unchanged and replaces
`recommendations` with the blank-line split of the completion text. -/
theorem generate_recommendations_frame
    (completion : String → Except String String) (st st' : ArticleState)
    (h : generate_recommendations completion st = Except.ok st') :
    st'.read_articles = st.read_articles ∧
    ∀ text, completion (historyText st) = Except.ok text →
      st'.recommendations = pySplitBlank text := by
  cases hc : completion (historyText st) with
  | error e => simp [generate_recommendations, hc] at h
  | ok text =>
    simp only [generate_recommendations, hc, Except.ok.injEq] at h
    subst h
    refine ⟨rfl, fun t ht => ?_⟩
    simp only [Except.ok.injEq] at ht
    rw [← ht]

/-- Witness for C9 at a concrete state and completion. -/
theorem generate_recommendations_frame_witness :
    ({ read_articles := ["h"], recommendations := [""] } :
        ArticleState).read_articles =
      ({ read_articles := ["h"], recommendations := [] } :
        ArticleState).read_articles :=
  (generate_recommendations_frame (fun _ => Except.ok "")
    { read_articles := ["h"], recommendations := [] }
    { read_articles := ["h"], recommendations := [""] } rfl).1

/-- The blank-line split always yields at least one chunk. -/
theorem splitBlank_ne_nil (cs : List Char) : splitBlank cs ≠ [] := by
  induction cs using splitBlank.induct with
  | case1 => simp [splitBlank]
  | case2 rest ih => simp [splitBlank]
  | case3 c rest h hsp ih =>
    simp [splitBlank, hsp]
  | case4 c rest h chunk more hsp ih =>
    simp [splitBlank, hsp]

/-- Claim C10: after a successful generation the recommendation list is never
empty, even for an empty completion text, so the presenter always prints a
first section labeled 推薦 1. -/
theorem generate_recommendations_nonempty
    (completion : String → Except String String) (st st' : ArticleState)
    (h : generate_recommendations completion st = Except.ok st') :
    st'.recommendations ≠ [] ∧
    (display_results st').1[1]? =
      some "\n[bold yellow]推薦 1[/bold yellow]" := by
  cases hc : completion (historyText st) with
  | error e => simp [generate_recommendations, hc] at h
  | ok text =>
    simp only [generate_recommendations, hc, Except.ok.injEq] at h
    have hne : st'.recommendations ≠ [] := by
      rw [← h]
      simp [pySplitBlank, splitBlank_ne_nil]
    refine ⟨hne, ?_⟩
    obtain ⟨r, rest, hr⟩ := List.exists_cons_of_ne_nil hne
    have l1 : ("\n[bold yellow]推薦 " ++ toString (1 : Nat) ++
        "[/bold yellow]") = "\n[bold yellow]推薦 1[/bold yellow]" := by
      decide
    simp [display_results, hr, displayLoop, l1]

/-- Witness for C10: the empty completion text still yields one section. -/
theorem generate_recommendations_nonempty_witness :
    ({ read_articles := [], recommendations := [""] } :
        ArticleState).recommendations ≠ [] ∧
    (display_results
        { read_articles := [], recommendations := [""] }).1[1]? =
      some "\n[bold yellow]推薦 1[/bold yellow]" :=
  generate_recommendations_nonempty (fun _ => Except.ok "")
    ArticleState.init { read_articles := [], recommendations := [""] } rfl
